import Mathlib

/-!
Verification development for the `anthropicautodocstrings` tool
(`anthropicautodocstrings/main.py`).  The Python source is shallowly
embedded: the per-file AST rewrite, the directory walk, the retry loop of
`generate_docstring`, and the credential checks become executable Lean
functions, with the external collaborators (the Anthropic API, the `ast`
parser, `astor`, `black`, the real file system) abstracted as explicit
function parameters or value oracles.
-/

namespace AAD

/-! ### Python string primitives, over lists of characters -/

/-- Python `str.replace(pat, repl)` for a nonempty pattern: scan left to
right, replacing each non-overlapping occurrence and continuing after it.
`fuel` only bounds the recursion depth; `s.length` always suffices. -/
def replaceFuel (pat repl : List Char) : Nat → List Char → List Char
  | _, [] => []
  | 0, s => s
  | fuel + 1, c :: rest =>
    if pat.isPrefixOf (c :: rest) then
      repl ++ replaceFuel pat repl fuel (rest.drop (pat.length - 1))
    else
      c :: replaceFuel pat repl fuel rest

/-- Python `s.replace(pat, repl)` (nonempty `pat`). -/
def replaceList (pat repl s : List Char) : List Char :=
  replaceFuel pat repl s.length s

/-- The three-character docstring delimiter `\x22\x22\x22`. -/
def tq : List Char := ['"', '"', '"']

/-- Whether a character list contains the triple-quote delimiter as a
contiguous substring. -/
def containsTQ : List Char → Bool
  | [] => false
  | c :: rest => tq.isPrefixOf (c :: rest) || containsTQ rest

/-- Python `str.strip()`: drop whitespace from both ends. -/
def pyStrip (s : String) : String :=
  String.mk (((s.data.dropWhile Char.isWhitespace).reverse.dropWhile
    Char.isWhitespace).reverse)

/-- Python `s.replace(pat, repl)` on `String`. -/
def pyReplace (s pat repl : String) : String :=
  String.mk (replaceList pat.data repl.data s.data)

/-- Python `s.startswith(pre)`. -/
def pyStartsWith (s pre : String) : Bool :=
  pre.data.isPrefixOf s.data

/-- Python `s.endswith(suf)`. -/
def pyEndsWith (s suf : String) : Bool :=
  suf.data.isSuffixOf s.data

/-- Python `s[3:-3]`. -/
def pySliceInner (s : String) : String :=
  String.mk ((s.data.drop 3).take (s.data.length - 6))

/-- The string `'''` (built from characters to keep the source readable). -/
def sq3 : String := String.mk ['\'', '\'', '\'']

/-! ### generate_docstring: content post-processing (main.py lines 112-121) -/

/-- Lines 113-119 of `generate_docstring`: post-process the first content
block of the model message into the final docstring string
(`\x22\x22\x22\n{content}\n\x22\x22\x22`). -/
def mkFinalDocstring (text : String) : String :=
  let content := pyStrip text
  let content := pyStrip (pyReplace (pyReplace content "```python" "") "```" "")
  let content :=
    if pyStartsWith content "\"\"\"" && pyEndsWith content "\"\"\"" then
      pyStrip (pySliceInner content)
    else if pyStartsWith content sq3 && pyEndsWith content sq3 then
      pyStrip (pySliceInner content)
    else content
  "\"\"\"\n" ++ content ++ "\n\"\"\""

/-- Lines 112-124 of `generate_docstring`: an empty `message.content` list
returns the empty string (the "No message content found" branch); otherwise
the first block's text is post-processed into the final docstring. -/
def processMessage (content : List String) : String :=
  match content with
  | [] => ""
  | text :: _ => mkFinalDocstring text

/-- Line 196 of `update_docstrings_in_file`:
`docstring.replace('\x22\x22\x22', '')`. -/
def stripTQ (d : String) : String :=
  pyReplace d (String.mk tq) ""

/-- Line 200 of `update_docstrings_in_file`: the `Constant` value of the
docstring expression spliced into the tree: `"\n" + docstring + "\n"` after
the delimiter removal of line 196. -/
def insertedDocText (d : String) : String :=
  "\n" ++ stripTQ d ++ "\n"

/-! ### The Python AST model -/

mutual
/-- Simplified Python statement: a bare string-expression statement
(`ast.Expr` whose value is an `ast.Str`), a function or async-function
definition, or any other statement (which contains no function nodes). -/
inductive Stmt where
  | exprStr (s : String) : Stmt
  | other : Stmt
  | funcDef (isAsync : Bool) (name : String) (body : Body) : Stmt
  deriving DecidableEq

/-- A module or function body: a list of statements. -/
inductive Body where
  | nil : Body
  | cons (s : Stmt) (rest : Body) : Body
  deriving DecidableEq
end

/-- Lines 180-184 of `update_docstrings_in_file`: `node.body` is nonempty
and its first element is an `ast.Expr` holding an `ast.Str`. -/
def hasDocstring : Body → Bool
  | .cons (.exprStr _) _ => true
  | _ => false

/-- Body of a function node (`Body.nil` for non-function statements). -/
def bodyOf : Stmt → Body
  | .funcDef _ _ b => b
  | _ => .nil

mutual
/-- Lines 167-202 of `update_docstrings_in_file`, per node of `ast.walk`:
skip `__init__` when `skip_constructor_docstrings`; skip nodes with an
existing docstring unless `replace_existing_docstrings`; otherwise pop an
existing docstring, call `generate_docstring` on the popped node (modelled
by the oracle `gen`), and, when the result is truthy, insert the new
docstring expression at the head.  `ast.walk` visits every function node,
so nested function definitions are rewritten independently; an outer node's
head surgery never touches its nested nodes, and each `generate_docstring`
call sees the node with its own docstring popped and its descendants still
in their original state, which this top-down recursion reproduces. -/
def updateStmt (replace skipC : Bool) (gen : Stmt → String) : Stmt → Stmt
  | .funcDef isAsync name body =>
    if name == "__init__" && skipC then
      Stmt.funcDef isAsync name (updateBody replace skipC gen body)
    else
      match body with
      | .cons (.exprStr s0) rest =>
        if replace then
          let d := gen (Stmt.funcDef isAsync name rest)
          if d ≠ "" then
            Stmt.funcDef isAsync name
              (Body.cons (Stmt.exprStr (insertedDocText d))
                (updateBody replace skipC gen rest))
          else
            Stmt.funcDef isAsync name (updateBody replace skipC gen rest)
        else
          Stmt.funcDef isAsync name
            (Body.cons (Stmt.exprStr s0) (updateBody replace skipC gen rest))
      | b =>
        let d := gen (Stmt.funcDef isAsync name b)
        if d ≠ "" then
          Stmt.funcDef isAsync name
            (Body.cons (Stmt.exprStr (insertedDocText d))
              (updateBody replace skipC gen b))
        else
          Stmt.funcDef isAsync name (updateBody replace skipC gen b)
  | s => s

/-- Rewrite every statement of a body (the other function nodes collected
by `ast.walk`). -/
def updateBody (replace skipC : Bool) (gen : Stmt → String) : Body → Body
  | .nil => .nil
  | .cons s rest =>
    Body.cons (updateStmt replace skipC gen s) (updateBody replace skipC gen rest)
end

mutual
/-- The arguments of the `generate_docstring` calls made while rewriting a
statement, in the same branch structure as `updateStmt`: a skipped node
contributes no call of its own, but calls from nested function nodes are
still made. -/
def genCallsStmt (replace skipC : Bool) : Stmt → List Stmt
  | .funcDef isAsync name body =>
    if name == "__init__" && skipC then
      genCallsBody replace skipC body
    else
      match body with
      | .cons (.exprStr _) rest =>
        if replace then
          Stmt.funcDef isAsync name rest :: genCallsBody replace skipC rest
        else
          genCallsBody replace skipC rest
      | b => Stmt.funcDef isAsync name b :: genCallsBody replace skipC b
  | _ => []

/-- Calls made while rewriting each statement of a body. -/
def genCallsBody (replace skipC : Bool) : Body → List Stmt
  | .nil => []
  | .cons s rest => genCallsStmt replace skipC s ++ genCallsBody replace skipC rest
end

/-- Whether a statement is a function or async-function definition. -/
def stmtIsFuncDef : Stmt → Bool
  | .funcDef _ _ _ => true
  | _ => false

/-- Whether a body contains a (directly nested) function definition. -/
def bodyHasFuncDef : Body → Bool
  | .nil => false
  | .cons s rest => stmtIsFuncDef s || bodyHasFuncDef rest

/-! ### update_docstrings_in_file (main.py lines 140-206) -/

/-- Line 58 of main.py. -/
def BASE_DIR : String := ""

/-- The observable outcome of one `update_docstrings_in_file` call.
`invalidPath`: the guard failed, the error message is printed and nothing
else happens.  `raised`: `open(abs_path)` raised (e.g. `FileNotFoundError`
for a missing file) and the exception propagates.  `skipped`: the file read
as the empty string, so `if file_contents:` is false and neither the parse
nor the write happens.  `wrote t`: the parsed tree was rewritten to `t`,
serialized, formatted and written back to the same `file` path. -/
inductive FileOutcome where
  | invalidPath
  | raised
  | skipped
  | wrote (newTree : Body)
  deriving DecidableEq

/-- Lines 159-206 of `update_docstrings_in_file`.  `fs` maps a path to the
contents of the file there (`none` when no file exists), `abspath`
abstracts `os.path.abspath` (`os.path.join(BASE_DIR, file)` is just `file`
because `BASE_DIR = ""`), and `parse` abstracts `ast.parse`.  The guard of
line 161 is `abs_path.startswith(BASE_DIR)`; when it fails only a message
is printed and `file_contents` stays `None`, so the write of line 203
(inside `if file_contents:`) is skipped. -/
def update_docstrings_in_file (fs : String → Option String)
    (abspath : String → String) (replace skipC : Bool) (gen : Stmt → String)
    (parse : String → Body) (file : String) : FileOutcome :=
  let absP := abspath file
  if ¬ (pyStartsWith absP BASE_DIR) then FileOutcome.invalidPath
  else
    match fs absP with
    | none => FileOutcome.raised
    | some contents =>
      if contents == "" then FileOutcome.skipped
      else FileOutcome.wrote (updateBody replace skipC gen (parse contents))

/-! ### The directory walk (main.py lines 209-299) -/

mutual
/-- A file-system entry: a regular file with contents, or a directory. -/
inductive FSEntry where
  | file (name contents : String) : FSEntry
  | dir (name : String) (entries : FSList) : FSEntry
  deriving DecidableEq

/-- A directory listing (the order of `os.listdir`). -/
inductive FSList where
  | nil : FSList
  | cons (e : FSEntry) (rest : FSList) : FSList
  deriving DecidableEq
end

mutual
/-- Lines 239-256, `update_docstrings_in_directory`: iterate the listing of
a directory.  `pf` abstracts the effect of `update_docstrings_in_file` on a
file's contents.  The second component collects the (component-list,
directory-relative) paths of every file passed to
`update_docstrings_in_file`. -/
def updateList (pf : String → String) (exclD exclF : List String) :
    FSList → FSList × List (List String)
  | .nil => (.nil, [])
  | .cons e rest =>
    let h := updateEntry pf exclD exclF e
    let r := updateList pf exclD exclF rest
    (FSList.cons h.1 r.1, h.2 ++ r.2)

/-- One iteration of the loop of lines 239-256: a regular file is processed
when its name ends in `.py` and its basename is not excluded; a directory
is recursed into when its basename is not excluded. -/
def updateEntry (pf : String → String) (exclD exclF : List String) :
    FSEntry → FSEntry × List (List String)
  | .file n c =>
    if pyEndsWith n ".py" then
      if n ∈ exclF then (FSEntry.file n c, [])
      else (FSEntry.file n (pf c), [[n]])
    else (FSEntry.file n c, [])
  | .dir n es =>
    if n ∈ exclD then (FSEntry.dir n es, [])
    else
      let d := updateList pf exclD exclF es
      (FSEntry.dir n d.1, d.2.map (fun p => n :: p))
end

/-- Lines 284-299, `update_docstrings`: dispatch on the top-level input.  A
`.py` file is processed unless its basename is excluded; a directory is
walked unless its basename is excluded; anything else is ignored. -/
def update_docstrings (pf : String → String) (exclD exclF : List String) :
    FSEntry → FSEntry × List (List String)
  | .file n c =>
    if pyEndsWith n ".py" then
      if n ∈ exclF then (FSEntry.file n c, [])
      else (FSEntry.file n (pf c), [[n]])
    else (FSEntry.file n c, [])
  | .dir n es =>
    if n ∈ exclD then (FSEntry.dir n es, [])
    else
      let r := updateList pf exclD exclF es
      (FSEntry.dir n r.1, r.2.map (fun p => n :: p))

mutual
/-- All file paths (as component lists) present in a listing. -/
def allPathsList : FSList → List (List String)
  | .nil => []
  | .cons e rest => allPathsEntry e ++ allPathsList rest

/-- All file paths below one entry. -/
def allPathsEntry : FSEntry → List (List String)
  | .file n _ => [[n]]
  | .dir n es => (allPathsList es).map (fun p => n :: p)
end

mutual
/-- The (path, contents) pairs of every file whose name does not end in
`.py`, below a listing. -/
def nonPyFilesList : FSList → List (List String × String)
  | .nil => []
  | .cons e rest => nonPyFilesEntry e ++ nonPyFilesList rest

/-- The non-`.py` files below one entry. -/
def nonPyFilesEntry : FSEntry → List (List String × String)
  | .file n c => if pyEndsWith n ".py" then [] else [([n], c)]
  | .dir n es => (nonPyFilesList es).map (fun q => (n :: q.1, q.2))
end

/-! ### Credential checks and main (main.py lines 80-88, 317-356) -/

/-- Python truthiness of `os.environ.get("ANTHROPIC_API_KEY")`: an unset
variable (`None`) and the empty string are both falsy. -/
def pyTruthy (v : Option String) : Bool :=
  match v with
  | none => false
  | some s => s != ""

/-- Lines 338-340 of `main`: `some 1` models `sys.exit(1)` on a missing or
empty key, `none` means execution continues. -/
def mainKeyCheck (key : Option String) : Option Nat :=
  if pyTruthy key then none else some 1

/-- Lines 80-88 of `generate_docstring`: the same check (reached before
every generation request); the surrounding `try`/`except` also exits with
code 1 when the client constructor raises on a missing key. -/
def genKeyCheck (key : Option String) : Option Nat :=
  if pyTruthy key then none else some 1

/-- Lines 317-356, `main`: the credential check runs before argument
parsing and before any file is visited; on failure the process exits with
code 1 having processed nothing, otherwise `update_docstrings` runs. -/
def main (key : Option String) (pf : String → String)
    (exclD exclF : List String) (input : FSEntry) :
    Option Nat × (FSEntry × List (List String)) :=
  match mainKeyCheck key with
  | some c => (some c, (input, []))
  | none => (none, update_docstrings pf exclD exclF input)

/-! ### The retry loop of generate_docstring (main.py lines 103-137) -/

/-- The outcome of one `client.messages.create` call: a rate-limit error or
a message carrying a list of content-block texts. -/
inductive ApiResult where
  | rateLimited
  | message (content : List String)
  deriving DecidableEq

/-- How `generate_docstring` finishes after the key check: a returned
string, or `sys.exit(1)`. -/
inductive GenOutcome where
  | returned (s : String)
  | exitedOne
  deriving DecidableEq

/-- A run of the retry loop: its outcome, the number of API calls made, and
the total seconds spent in `time.sleep(60)` backoffs. -/
structure GenRun where
  outcome : GenOutcome
  attempts : Nat
  sleptSeconds : Nat
  deriving DecidableEq

/-- Lines 103-136: the `while retries < max_retries` loop, with
`remaining = max_retries - retries`; `call i` is the result of the
`i`-th `client.messages.create` call.  A successful call returns the
post-processed docstring (or `""` on empty content); a rate-limited call
prints a notice, sleeps 60 seconds and retries.  When the loop exhausts its
attempts, `retries == max_retries` holds, the "Maximum number of retries
exceeded" message is printed and the process exits with code 1 (the
trailing `return None` of line 137 is unreachable). -/
def genLoop (call : Nat → ApiResult) : Nat → Nat → Nat → Nat → GenRun
  | _retries, attempts, slept, 0 =>
    { outcome := GenOutcome.exitedOne, attempts := attempts,
      sleptSeconds := slept }
  | retries, attempts, slept, remaining + 1 =>
    match call retries with
    | ApiResult.message content =>
      { outcome := GenOutcome.returned (processMessage content),
        attempts := attempts + 1, sleptSeconds := slept }
    | ApiResult.rateLimited =>
      genLoop call (retries + 1) (attempts + 1) (slept + 60) remaining

/-- The whole loop of `generate_docstring` after the key check:
`max_retries = 5`, starting from `retries = 0`. -/
def generate_docstring_run (call : Nat → ApiResult) : GenRun :=
  genLoop call 0 0 0 5

/-! ### Helper lemmas -/

/-- Because `BASE_DIR = ""`, the `abs_path.startswith(BASE_DIR)` guard of
line 161 holds for every path. -/
theorem pyStartsWith_base_dir (p : String) : pyStartsWith p BASE_DIR = true := by
  simp [pyStartsWith, BASE_DIR, List.isPrefixOf]

/-- A body without function definitions is left unchanged by the walk. -/
theorem updateBody_id_of_noFD (replace skipC : Bool) (gen : Stmt → String) :
    ∀ b : Body, bodyHasFuncDef b = false → updateBody replace skipC gen b = b
  | .nil, _ => rfl
  | .cons s rest, h => by
    have hs : stmtIsFuncDef s = false := by
      simp [bodyHasFuncDef] at h; exact h.1
    have hr : bodyHasFuncDef rest = false := by
      simp [bodyHasFuncDef] at h; exact h.2
    have ih := updateBody_id_of_noFD replace skipC gen rest hr
    cases s with
    | exprStr s0 => simp [updateBody, updateStmt, ih]
    | other => simp [updateBody, updateStmt, ih]
    | funcDef a n b => simp [stmtIsFuncDef] at hs

/-- A body without function definitions triggers no generation calls. -/
theorem genCallsBody_nil_of_noFD (replace skipC : Bool) :
    ∀ b : Body, bodyHasFuncDef b = false → genCallsBody replace skipC b = []
  | .nil, _ => rfl
  | .cons s rest, h => by
    have hs : stmtIsFuncDef s = false := by
      simp [bodyHasFuncDef] at h; exact h.1
    have hr : bodyHasFuncDef rest = false := by
      simp [bodyHasFuncDef] at h; exact h.2
    have ih := genCallsBody_nil_of_noFD replace skipC rest hr
    cases s with
    | exprStr s0 => simp [genCallsBody, genCallsStmt, ih]
    | other => simp [genCallsBody, genCallsStmt, ih]
    | funcDef a n b => simp [stmtIsFuncDef] at hs

/-! ### Claim theorems -/

/-- C1: the spec says an invalid file path leads to a printed message and a
skipped file with no exception.  The code's guard `abs_path.startswith(BASE_DIR)`
is always true because `BASE_DIR = ""`, so the message branch is dead code,
and on a path naming no existing file `open(abs_path)` raises an uncaught
`FileNotFoundError` instead (outcome `raised`, not `invalidPath`). -/
theorem C1_invalid_path_branch_dead_and_open_raises :
    (∀ p : String, pyStartsWith p BASE_DIR = true) ∧
    update_docstrings_in_file (fun _ => none) (fun p => p) true false
      (fun _ => "") (fun _ => Body.nil) "missing.py" = FileOutcome.raised ∧
    update_docstrings_in_file (fun _ => none) (fun p => p) true false
      (fun _ => "") (fun _ => Body.nil) "missing.py" ≠ FileOutcome.invalidPath := by
  refine ⟨pyStartsWith_base_dir, by decide, by decide⟩

/-- C10: a file whose contents read as the empty string is skipped before
the parse: `if file_contents:` is false, so neither `ast.parse` nor the
write of line 203 runs and the file is unchanged on disk. -/
theorem C10_empty_file_skipped (fs : String → Option String)
    (abspath : String → String) (replace skipC : Bool) (gen : Stmt → String)
    (parse : String → Body) (file : String)
    (h : fs (abspath file) = some "") :
    update_docstrings_in_file fs abspath replace skipC gen parse file
      = FileOutcome.skipped := by
  simp [update_docstrings_in_file, pyStartsWith_base_dir, h]

/-- Witness for C10 at a concrete empty file. -/
theorem C10_empty_file_skipped_witness :
    update_docstrings_in_file (fun _ => some "") (fun p => p) true false
      (fun _ => "") (fun _ => Body.nil) "a.py" = FileOutcome.skipped :=
  C10_empty_file_skipped (fun _ => some "") (fun p => p) true false
    (fun _ => "") (fun _ => Body.nil) "a.py" rfl

/-- C7: an unset or empty `ANTHROPIC_API_KEY` makes `main` print and exit
with code 1 before visiting any file, and the same check in
`generate_docstring` also exits with code 1. -/
theorem C7_missing_key_exits (key : Option String) (pf : String → String)
    (exclD exclF : List String) (input : FSEntry)
    (h : key = none ∨ key = some "") :
    mainKeyCheck key = some 1 ∧ genKeyCheck key = some 1 ∧
    main key pf exclD exclF input = (some 1, (input, [])) := by
  rcases h with h | h <;> subst h <;>
    simp [mainKeyCheck, genKeyCheck, main, pyTruthy]

/-- Witness for C7 at an unset key. -/
theorem C7_missing_key_exits_witness :
    mainKeyCheck none = some 1 ∧ genKeyCheck none = some 1 ∧
    main none (fun c => c) [] [] (FSEntry.file "a.py" "x")
      = (some 1, (FSEntry.file "a.py" "x", [])) :=
  C7_missing_key_exits none (fun c => c) [] [] (FSEntry.file "a.py" "x")
    (Or.inl rfl)

/-! ### The retry loop -/

/-- The loop makes at most `remaining` further calls. -/
theorem genLoop_attempts_le (call : Nat → ApiResult) :
    ∀ (remaining retries attempts slept : Nat),
      (genLoop call retries attempts slept remaining).attempts
        ≤ attempts + remaining := by
  intro remaining
  induction remaining with
  | zero => intro r a s; simp [genLoop]
  | succ rem ih =>
    intro r a s
    cases hc : call r with
    | message content => simp [genLoop, hc]
    | rateLimited =>
      simp only [genLoop, hc]
      have := ih (r + 1) (a + 1) (s + 60)
      omega

/-- When every remaining call is rate-limited the loop exhausts its
attempts, sleeping 60 seconds per attempt, and exits with code 1. -/
theorem genLoop_all_rate_limited (call : Nat → ApiResult) :
    ∀ (remaining retries attempts slept : Nat),
      (∀ i, retries ≤ i → i < retries + remaining →
        call i = ApiResult.rateLimited) →
      genLoop call retries attempts slept remaining
        = { outcome := GenOutcome.exitedOne,
            attempts := attempts + remaining,
            sleptSeconds := slept + 60 * remaining } := by
  intro remaining
  induction remaining with
  | zero => intro r a s _; simp [genLoop]
  | succ rem ih =>
    intro r a s h
    have hr : call r = ApiResult.rateLimited := h r (Nat.le_refl r) (by omega)
    simp only [genLoop, hr]
    rw [ih (r + 1) (a + 1) (s + 60) (fun i h1 h2 => h i (by omega) (by omega))]
    simp [GenRun.mk.injEq]
    omega

/-- When the `i`-th call is the first one that is not rate-limited and it
returns a message, the loop returns its post-processed content after `i`
backoffs of 60 seconds. -/
theorem genLoop_first_message (call : Nat → ApiResult) :
    ∀ (remaining retries attempts slept i : Nat) (blocks : List String),
      retries ≤ i → i < retries + remaining →
      call i = ApiResult.message blocks →
      (∀ j, retries ≤ j → j < i → call j = ApiResult.rateLimited) →
      genLoop call retries attempts slept remaining
        = { outcome := GenOutcome.returned (processMessage blocks),
            attempts := attempts + (i - retries) + 1,
            sleptSeconds := slept + 60 * (i - retries) } := by
  intro remaining
  induction remaining with
  | zero => intro r a s i blocks h1 h2; omega
  | succ rem ih =>
    intro r a s i blocks h1 h2 hc hprev
    by_cases hi : i = r
    · subst hi
      simp [genLoop, hc]
    · have hr : call r = ApiResult.rateLimited :=
        hprev r (Nat.le_refl r) (by omega)
      simp only [genLoop, hr]
      rw [ih (r + 1) (a + 1) (s + 60) i blocks (by omega) (by omega) hc
        (fun j hj1 hj2 => hprev j (by omega) hj2)]
      simp [GenRun.mk.injEq]
      omega

/-- C6: a rate-limited generation call sleeps a fixed 60 seconds and
retries; at most 5 API calls are made in total; if all 5 attempts are
rate-limited the loop prints its message and the process exits with code 1
(after 5 backoffs, i.e. 300 seconds of sleeping); and a first successful
call at attempt `i` returns after `i` backoffs. -/
theorem C6_rate_limit_bounded_retry (call : Nat → ApiResult) :
    (generate_docstring_run call).attempts ≤ 5 ∧
    ((∀ i, i < 5 → call i = ApiResult.rateLimited) →
      generate_docstring_run call
        = { outcome := GenOutcome.exitedOne, attempts := 5,
            sleptSeconds := 300 }) ∧
    (∀ i (blocks : List String), i < 5 →
      call i = ApiResult.message blocks →
      (∀ j, j < i → call j = ApiResult.rateLimited) →
      generate_docstring_run call
        = { outcome := GenOutcome.returned (processMessage blocks),
            attempts := i + 1, sleptSeconds := 60 * i }) := by
  refine ⟨?_, ?_, ?_⟩
  · have := genLoop_attempts_le call 5 0 0 0
    simpa [generate_docstring_run] using this
  · intro h
    have := genLoop_all_rate_limited call 5 0 0 0
      (fun i _ h2 => h i (by omega))
    simpa [generate_docstring_run] using this
  · intro i blocks hi hc hprev
    have := genLoop_first_message call 5 0 0 0 i blocks (Nat.zero_le i)
      (by omega) hc (fun j _ hj => hprev j hj)
    simpa [generate_docstring_run] using this

/-- Witness for C6: all five calls rate-limited exits with code 1 after
300 seconds of backoff. -/
theorem C6_rate_limit_bounded_retry_witness :
    generate_docstring_run (fun _ => ApiResult.rateLimited)
      = { outcome := GenOutcome.exitedOne, attempts := 5,
          sleptSeconds := 300 } :=
  (C6_rate_limit_bounded_retry (fun _ => ApiResult.rateLimited)).2.1
    (fun _ _ => rfl)

/-! ### The directory walk -/

mutual
/-- Every path visited below a listing is a `.py` file whose basename is
not excluded and all of whose intermediate directories are not excluded. -/
theorem updateList_visited (pf : String → String) (exclD exclF : List String) :
    ∀ l : FSList, ∀ p ∈ (updateList pf exclD exclF l).2,
      ∃ ds f, p = ds ++ [f] ∧ pyEndsWith f ".py" = true ∧ f ∉ exclF ∧
        ∀ d ∈ ds, d ∉ exclD
  | .nil => by simp [updateList]
  | .cons e rest => by
    intro p hp
    simp only [updateList, List.mem_append] at hp
    rcases hp with hp | hp
    · exact updateEntry_visited pf exclD exclF e p hp
    · exact updateList_visited pf exclD exclF rest p hp

/-- The per-entry part of `updateList_visited`. -/
theorem updateEntry_visited (pf : String → String) (exclD exclF : List String) :
    ∀ e : FSEntry, ∀ p ∈ (updateEntry pf exclD exclF e).2,
      ∃ ds f, p = ds ++ [f] ∧ pyEndsWith f ".py" = true ∧ f ∉ exclF ∧
        ∀ d ∈ ds, d ∉ exclD
  | .file n c => by
    intro p hp
    by_cases hpy : pyEndsWith n ".py"
    · by_cases hex : n ∈ exclF
      · simp [updateEntry, hpy, hex] at hp
      · simp only [updateEntry, if_pos hpy, if_neg hex,
          List.mem_singleton] at hp
        subst hp
        exact ⟨[], n, rfl, hpy, hex, by simp⟩
    · simp [updateEntry, hpy] at hp
  | .dir n es => by
    intro p hp
    by_cases hex : n ∈ exclD
    · simp [updateEntry, hex] at hp
    · simp only [updateEntry, if_neg hex, List.mem_map] at hp
      obtain ⟨q, hq, rfl⟩ := hp
      obtain ⟨ds, f, rfl, h1, h2, h3⟩ :=
        updateList_visited pf exclD exclF es q hq
      refine ⟨n :: ds, f, rfl, h1, h2, ?_⟩
      intro d hd
      rcases List.mem_cons.mp hd with rfl | hd
      · exact hex
      · exact h3 d hd
end

mutual
/-- The walk rewrites files in place: the set of paths is unchanged. -/
theorem updateList_allPaths (pf : String → String) (exclD exclF : List String) :
    ∀ l : FSList, allPathsList (updateList pf exclD exclF l).1 = allPathsList l
  | .nil => rfl
  | .cons e rest => by
    simp only [updateList, allPathsList]
    rw [updateEntry_allPaths pf exclD exclF e,
      updateList_allPaths pf exclD exclF rest]

/-- The per-entry part of `updateList_allPaths`. -/
theorem updateEntry_allPaths (pf : String → String) (exclD exclF : List String) :
    ∀ e : FSEntry, allPathsEntry (updateEntry pf exclD exclF e).1 = allPathsEntry e
  | .file n c => by
    by_cases hpy : pyEndsWith n ".py"
    · by_cases hex : n ∈ exclF <;> simp [updateEntry, hpy, hex, allPathsEntry]
    · simp [updateEntry, hpy, allPathsEntry]
  | .dir n es => by
    by_cases hex : n ∈ exclD
    · simp [updateEntry, hex]
    · simp only [updateEntry, if_neg hex, allPathsEntry]
      rw [updateList_allPaths pf exclD exclF es]
end

mutual
/-- Files whose name does not end in `.py` are byte-for-byte unchanged. -/
theorem updateList_nonPy (pf : String → String) (exclD exclF : List String) :
    ∀ l : FSList, nonPyFilesList (updateList pf exclD exclF l).1 = nonPyFilesList l
  | .nil => rfl
  | .cons e rest => by
    simp only [updateList, nonPyFilesList]
    rw [updateEntry_nonPy pf exclD exclF e,
      updateList_nonPy pf exclD exclF rest]

/-- The per-entry part of `updateList_nonPy`. -/
theorem updateEntry_nonPy (pf : String → String) (exclD exclF : List String) :
    ∀ e : FSEntry, nonPyFilesEntry (updateEntry pf exclD exclF e).1 = nonPyFilesEntry e
  | .file n c => by
    by_cases hpy : pyEndsWith n ".py"
    · by_cases hex : n ∈ exclF <;> simp [updateEntry, hpy, hex, nonPyFilesEntry]
    · simp [updateEntry, hpy, nonPyFilesEntry]
  | .dir n es => by
    by_cases hex : n ∈ exclD
    · simp [updateEntry, hex]
    · simp only [updateEntry, if_neg hex, nonPyFilesEntry]
      rw [updateList_nonPy pf exclD exclF es]
end

/-- C3: during a walk, a file whose basename is in `exclude_files` is never
processed and a directory whose basename is in `exclude_directories` is
never recursed into (every visited path has a non-excluded basename and
only non-excluded directory components), and the same exclusions apply to
the top-level input of `update_docstrings`. -/
theorem C3_exclusions_prevent_visits (pf : String → String)
    (exclD exclF : List String) :
    (∀ l : FSList, ∀ p ∈ (updateList pf exclD exclF l).2,
      ∃ ds f, p = ds ++ [f] ∧ f ∉ exclF ∧ ∀ d ∈ ds, d ∉ exclD) ∧
    (∀ n c, pyEndsWith n ".py" = true → n ∈ exclF →
      update_docstrings pf exclD exclF (FSEntry.file n c)
        = (FSEntry.file n c, [])) ∧
    (∀ n es, n ∈ exclD →
      update_docstrings pf exclD exclF (FSEntry.dir n es)
        = (FSEntry.dir n es, [])) := by
  refine ⟨?_, ?_, ?_⟩
  · intro l p hp
    obtain ⟨ds, f, h0, _, h2, h3⟩ := updateList_visited pf exclD exclF l p hp
    exact ⟨ds, f, h0, h2, h3⟩
  · intro n c hpy hex
    simp [update_docstrings, hpy, hex]
  · intro n es hex
    simp [update_docstrings, hex]

/-- Witness for C3: a concrete walk with an excluded file and an excluded
directory visits only `a.py`, whose name avoids both exclusion lists. -/
theorem C3_exclusions_prevent_visits_witness :
    (∃ ds f, ["a.py"] = ds ++ [f] ∧ f ∉ ["ex.py"] ∧
      ∀ d ∈ ds, d ∉ ["skip"]) ∧
    update_docstrings (fun c => c) ["skip"] ["ex.py"]
      (FSEntry.file "ex.py" "x") = (FSEntry.file "ex.py" "x", []) ∧
    update_docstrings (fun c => c) ["skip"] ["ex.py"]
      (FSEntry.dir "skip" FSList.nil) = (FSEntry.dir "skip" FSList.nil, []) := by
  refine ⟨?_, ?_, ?_⟩
  · exact (C3_exclusions_prevent_visits (fun c => c) ["skip"] ["ex.py"]).1
      (FSList.cons (FSEntry.file "a.py" "x")
        (FSList.cons (FSEntry.file "ex.py" "y")
          (FSList.cons (FSEntry.dir "skip"
            (FSList.cons (FSEntry.file "b.py" "z") FSList.nil)) FSList.nil)))
      ["a.py"] (by decide)
  · exact (C3_exclusions_prevent_visits (fun c => c) ["skip"] ["ex.py"]).2.1
      "ex.py" "x" (by decide) (by decide)
  · exact (C3_exclusions_prevent_visits (fun c => c) ["skip"] ["ex.py"]).2.2
      "skip" FSList.nil (by decide)

/-- C9: only regular files whose name ends in `.py` are ever processed
(every visited path names a `.py` file); every other file is byte-for-byte
unchanged by the walk, and a non-`.py` top-level input is left untouched
with nothing visited. -/
theorem C9_only_py_files_touched (pf : String → String)
    (exclD exclF : List String) :
    (∀ l : FSList, ∀ p ∈ (updateList pf exclD exclF l).2,
      ∃ ds f, p = ds ++ [f] ∧ pyEndsWith f ".py" = true) ∧
    (∀ l : FSList,
      nonPyFilesList (updateList pf exclD exclF l).1 = nonPyFilesList l) ∧
    (∀ n c, pyEndsWith n ".py" = false →
      update_docstrings pf exclD exclF (FSEntry.file n c)
        = (FSEntry.file n c, [])) := by
  refine ⟨?_, updateList_nonPy pf exclD exclF, ?_⟩
  · intro l p hp
    obtain ⟨ds, f, h0, h1, _, _⟩ := updateList_visited pf exclD exclF l p hp
    exact ⟨ds, f, h0, h1⟩
  · intro n c hpy
    simp [update_docstrings, hpy]

/-- Witness for C9: a concrete walk over a `.py` file, a `.txt` file and a
subdirectory visits only the `.py` paths and preserves the `.txt` file. -/
theorem C9_only_py_files_touched_witness :
    (∃ ds f, ["a.py"] = ds ++ [f] ∧ pyEndsWith f ".py" = true) ∧
    nonPyFilesList (updateList (fun _ => "GEN") [] []
      (FSList.cons (FSEntry.file "a.py" "x")
        (FSList.cons (FSEntry.file "b.txt" "t") FSList.nil))).1
      = nonPyFilesList (FSList.cons (FSEntry.file "a.py" "x")
        (FSList.cons (FSEntry.file "b.txt" "t") FSList.nil)) ∧
    update_docstrings (fun _ => "GEN") [] [] (FSEntry.file "b.txt" "t")
      = (FSEntry.file "b.txt" "t", []) := by
  refine ⟨?_, ?_, ?_⟩
  · exact (C9_only_py_files_touched (fun _ => "GEN") [] []).1
      (FSList.cons (FSEntry.file "a.py" "x")
        (FSList.cons (FSEntry.file "b.txt" "t") FSList.nil))
      ["a.py"] (by decide)
  · exact (C9_only_py_files_touched (fun _ => "GEN") [] []).2.1
      (FSList.cons (FSEntry.file "a.py" "x")
        (FSList.cons (FSEntry.file "b.txt" "t") FSList.nil))
  · exact (C9_only_py_files_touched (fun _ => "GEN") [] []).2.2
      "b.txt" "t" (by decide)

/-! ### No triple-quote delimiter survives the replacement of line 196 -/

/-- A list has the delimiter as a prefix exactly when it starts with three
double quotes. -/
theorem tq_isPrefixOf_iff : ∀ l : List Char,
    tq.isPrefixOf l = true ↔ ∃ u, l = '"' :: '"' :: '"' :: u
  | [] => by simp [tq, List.isPrefixOf]
  | [a] => by simp [tq, List.isPrefixOf]
  | [a, b] => by simp [tq, List.isPrefixOf]
  | a :: b :: c :: u => by
    constructor
    · intro h
      simp only [tq, List.isPrefixOf, Bool.and_eq_true, beq_iff_eq] at h
      obtain ⟨h1, h2, h3, _⟩ := h
      exact ⟨u, by rw [← h1, ← h2, ← h3]⟩
    · rintro ⟨v, hv⟩
      simp only [List.cons.injEq] at hv
      obtain ⟨rfl, rfl, rfl, rfl⟩ := hv
      simp [tq, List.isPrefixOf]

/-- If the replacement output starts with a quote, so did its input. -/
theorem replaceFuel_tq_head (fuel : Nat) (s t : List Char)
    (h : replaceFuel tq [] fuel s = '"' :: t) : ∃ u, s = '"' :: u := by
  match fuel, s with
  | fuel, [] => simp [replaceFuel] at h
  | 0, c :: rest =>
    simp only [replaceFuel, List.cons.injEq] at h
    exact ⟨rest, by rw [h.1]⟩
  | fuel + 1, c :: rest =>
    by_cases hp : tq.isPrefixOf (c :: rest)
    · obtain ⟨u, hu⟩ := (tq_isPrefixOf_iff _).mp hp
      exact ⟨'"' :: '"' :: u, by rw [hu]⟩
    · simp only [replaceFuel, if_neg hp, List.cons.injEq] at h
      exact ⟨rest, by rw [h.1]⟩

/-- If the delimiter is not a prefix of `c :: rest`, it is not a prefix of
`c` followed by the replacement output for `rest` either: by leftmost-ness,
the replacement can not create a new occurrence at the front. -/
theorem tq_not_prefix_after (fuel : Nat) (c : Char) (rest : List Char)
    (hp : tq.isPrefixOf (c :: rest) = false) :
    tq.isPrefixOf (c :: replaceFuel tq [] fuel rest) = false := by
  cases htq : tq.isPrefixOf (c :: replaceFuel tq [] fuel rest) with
  | false => rfl
  | true =>
    exfalso
    obtain ⟨u, hu⟩ := (tq_isPrefixOf_iff _).mp htq
    rw [List.cons.injEq] at hu
    obtain ⟨rfl, hR⟩ := hu
    match fuel, rest, hR with
    | fuel, [], hR => simp [replaceFuel] at hR
    | 0, d :: rest2, hR =>
      rw [show replaceFuel tq [] 0 (d :: rest2) = d :: rest2 from rfl] at hR
      have ht : tq.isPrefixOf ('"' :: d :: rest2) = true :=
        (tq_isPrefixOf_iff _).mpr ⟨u, by rw [hR]⟩
      rw [ht] at hp
      simp at hp
    | f + 1, d :: rest2, hR =>
      by_cases hp2 : tq.isPrefixOf (d :: rest2)
      · obtain ⟨v, hv⟩ := (tq_isPrefixOf_iff _).mp hp2
        have ht : tq.isPrefixOf ('"' :: d :: rest2) = true :=
          (tq_isPrefixOf_iff _).mpr ⟨'"' :: v, by rw [hv]⟩
        rw [ht] at hp
        simp at hp
      · simp only [replaceFuel, if_neg hp2, List.cons.injEq] at hR
        obtain ⟨rfl, hR2⟩ := hR
        obtain ⟨w, hw⟩ := replaceFuel_tq_head f rest2 u hR2
        have ht : tq.isPrefixOf ('"' :: '"' :: rest2) = true :=
          (tq_isPrefixOf_iff _).mpr ⟨w, by rw [hw]⟩
        rw [ht] at hp
        simp at hp

/-- The output of the delimiter removal never contains the delimiter. -/
theorem containsTQ_replaceFuel :
    ∀ (fuel : Nat) (s : List Char), s.length ≤ fuel →
      containsTQ (replaceFuel tq [] fuel s) = false
  | _, [], _ => by simp [replaceFuel, containsTQ]
  | 0, c :: rest, h => by simp at h
  | fuel + 1, c :: rest, h => by
    by_cases hp : tq.isPrefixOf (c :: rest)
    · simp only [replaceFuel, if_pos hp, List.nil_append]
      apply containsTQ_replaceFuel fuel
      have hlen : (List.drop (tq.length - 1) rest).length ≤ rest.length := by
        rw [List.length_drop]
        exact Nat.sub_le _ _
      simp only [List.length_cons] at h
      omega
    · simp only [replaceFuel, if_neg hp]
      have h1 := tq_not_prefix_after fuel c rest (Bool.eq_false_iff.mpr hp)
      have h2 := containsTQ_replaceFuel fuel rest
        (by simp only [List.length_cons] at h; omega)
      simp only [containsTQ, h1, h2, Bool.or_self]

/-- Appending a non-quote character can not create a one-quote prefix. -/
theorem q_isPrefixOf_append (c : Char) (hc : c ≠ '"') :
    ∀ l : List Char, List.isPrefixOf ['"'] (l ++ [c]) = List.isPrefixOf ['"'] l
  | [] => by
    have : ('"' == c) = false := by
      simp only [beq_eq_false_iff_ne, ne_eq]
      exact fun h => hc h.symm
    simp [List.isPrefixOf, this]
  | a :: l' => by simp [List.isPrefixOf]

/-- Appending a non-quote character can not create a two-quote prefix. -/
theorem qq_isPrefixOf_append (c : Char) (hc : c ≠ '"') :
    ∀ l : List Char,
      List.isPrefixOf ['"', '"'] (l ++ [c]) = List.isPrefixOf ['"', '"'] l
  | [] => by simp [List.isPrefixOf]
  | a :: l' => by simp [List.isPrefixOf, q_isPrefixOf_append c hc l']

/-- Appending a non-quote character can not create a delimiter prefix. -/
theorem tq_isPrefixOf_append (c : Char) (hc : c ≠ '"') :
    ∀ l : List Char, tq.isPrefixOf (l ++ [c]) = tq.isPrefixOf l
  | [] => by simp [tq, List.isPrefixOf]
  | a :: l' => by simp [tq, List.isPrefixOf, qq_isPrefixOf_append c hc l']

/-- Appending a non-quote character can not create a delimiter occurrence. -/
theorem containsTQ_append_single (c : Char) (hc : c ≠ '"') :
    ∀ l : List Char, containsTQ (l ++ [c]) = containsTQ l
  | [] => by simp [containsTQ, tq, List.isPrefixOf]
  | a :: l' => by
    have h2 := tq_isPrefixOf_append c hc (a :: l')
    have h3 := containsTQ_append_single c hc l'
    simp only [List.cons_append, List.append_eq] at h2
    simp only [List.cons_append, List.append_eq, containsTQ]
    rw [h2, h3]

/-- Wrapping a delimiter-free text in newlines keeps it delimiter-free. -/
theorem containsTQ_wrap (l : List Char) (h : containsTQ l = false) :
    containsTQ ('\n' :: (l ++ ['\n'])) = false := by
  simp only [containsTQ]
  rw [containsTQ_append_single '\n' (by decide) l, h]
  have : tq.isPrefixOf ('\n' :: (l ++ ['\n'])) = false := by
    simp [tq, List.isPrefixOf]
  rw [this]
  rfl

/-- C8: the doc-comment text spliced into the tree (line 200) never
contains the `\x22\x22\x22` delimiter, because line 196 removes every
occurrence first and the added newlines can not create one; and the walk
rewrites each file in place, at its original path. -/
theorem C8_inserted_text_never_contains_delimiter :
    (∀ d : String, containsTQ (insertedDocText d).data = false) ∧
    (∀ (pf : String → String) (exclD exclF : List String) (l : FSList),
      allPathsList (updateList pf exclD exclF l).1 = allPathsList l) := by
  constructor
  · intro d
    have hdata : (insertedDocText d).data
        = '\n' :: (replaceFuel tq [] d.data.length d.data ++ ['\n']) := rfl
    rw [hdata]
    exact containsTQ_wrap _ (containsTQ_replaceFuel d.data.length d.data le_rfl)
  · exact updateList_allPaths

/-! ### The per-node rewrite -/

/-- The final docstring built by a successful generation is never empty:
it always starts with the delimiter. -/
theorem mkFinalDocstring_ne_empty (t : String) : mkFinalDocstring t ≠ "" := by
  intro h
  have hlen := congrArg String.length h
  simp only [mkFinalDocstring] at hlen
  rw [String.length_append, String.length_append] at hlen
  have h1 : ("\"\"\"\n" : String).length = 4 := rfl
  have h2 : ("\n\"\"\"" : String).length = 4 := rfl
  have h3 : ("" : String).length = 0 := rfl
  rw [h1, h2, h3] at hlen
  omega

/-- A message with nonempty content always yields a nonempty docstring
string; only the empty-content branch returns `""`. -/
theorem processMessage_ne_empty (b : String) (bs : List String) :
    processMessage (b :: bs) ≠ "" :=
  mkFinalDocstring_ne_empty b

/-- C2 counterexample: when the generation call returns a message with no
content, `generate_docstring` returns `""`, so with
`replace_existing_docstrings` true the existing doc comment of `f` is
removed and nothing is inserted: the rewritten function has no leading doc
comment at all, contradicting "always carries exactly one leading doc
comment". -/
theorem C2_counterexample :
    processMessage [] = "" ∧
    updateStmt true false (fun _ => processMessage [])
        (Stmt.funcDef false "f"
          (Body.cons (Stmt.exprStr "old") (Body.cons Stmt.other Body.nil)))
      = Stmt.funcDef false "f" (Body.cons Stmt.other Body.nil) ∧
    hasDocstring (bodyOf (updateStmt true false (fun _ => processMessage [])
        (Stmt.funcDef false "f"
          (Body.cons (Stmt.exprStr "old") (Body.cons Stmt.other Body.nil)))))
      = false := by
  refine ⟨rfl, by decide, by decide⟩

/-- C2 (amended): with `replace_existing_docstrings` true, for a processed
(non-skipped) function node whose body starts with a doc comment, the old
doc comment is removed and, whenever the generation call returns a nonempty
string — which it does for every message with nonempty content — the newly
generated doc comment is inserted as the first body element, so the
rewritten node carries the new doc comment as its single leading one. -/
theorem C2_amended_replace_inserts (skipC : Bool) (gen : Stmt → String)
    (isAsync : Bool) (name : String) (s0 : String) (rest : Body)
    (hskip : (name == "__init__" && skipC) = false)
    (hd : gen (Stmt.funcDef isAsync name rest) ≠ "") :
    updateStmt true skipC gen
        (Stmt.funcDef isAsync name (Body.cons (Stmt.exprStr s0) rest))
      = Stmt.funcDef isAsync name
          (Body.cons
            (Stmt.exprStr (insertedDocText (gen (Stmt.funcDef isAsync name rest))))
            (updateBody true skipC gen rest)) ∧
    hasDocstring (bodyOf (updateStmt true skipC gen
        (Stmt.funcDef isAsync name (Body.cons (Stmt.exprStr s0) rest)))) = true ∧
    (∀ (b : String) (bs : List String), processMessage (b :: bs) ≠ "") := by
  have heq : updateStmt true skipC gen
      (Stmt.funcDef isAsync name (Body.cons (Stmt.exprStr s0) rest))
    = Stmt.funcDef isAsync name
        (Body.cons
          (Stmt.exprStr (insertedDocText (gen (Stmt.funcDef isAsync name rest))))
          (updateBody true skipC gen rest)) := by
    simp [updateStmt, hskip, hd]
  exact ⟨heq, by rw [heq]; rfl, processMessage_ne_empty⟩

/-- Witness for the amended C2 at a concrete node. -/
theorem C2_amended_replace_inserts_witness :
    updateStmt true false (fun _ => "D")
        (Stmt.funcDef false "f" (Body.cons (Stmt.exprStr "old") Body.nil))
      = Stmt.funcDef false "f"
          (Body.cons (Stmt.exprStr (insertedDocText "D")) Body.nil) := by
  have h := C2_amended_replace_inserts false (fun _ => "D") false "f" "old"
    Body.nil (by decide) (by decide)
  simpa [updateBody] using h.1

/-- C4 counterexample: with `replace_existing_docstrings` false, a function
`f` with an existing doc comment is itself skipped, but `ast.walk` still
rewrites the nested function `g` inside its body, so the body of `f` in the
rewritten tree differs from its original body. -/
theorem C4_counterexample :
    updateStmt false false (fun _ => mkFinalDocstring "D")
        (Stmt.funcDef false "f" (Body.cons (Stmt.exprStr "doc")
          (Body.cons (Stmt.funcDef false "g" (Body.cons Stmt.other Body.nil))
            Body.nil)))
      = Stmt.funcDef false "f" (Body.cons (Stmt.exprStr "doc")
          (Body.cons (Stmt.funcDef false "g"
            (Body.cons (Stmt.exprStr "\n\nD\n\n")
              (Body.cons Stmt.other Body.nil)))
            Body.nil)) ∧
    updateStmt false false (fun _ => mkFinalDocstring "D")
        (Stmt.funcDef false "f" (Body.cons (Stmt.exprStr "doc")
          (Body.cons (Stmt.funcDef false "g" (Body.cons Stmt.other Body.nil))
            Body.nil)))
      ≠ Stmt.funcDef false "f" (Body.cons (Stmt.exprStr "doc")
          (Body.cons (Stmt.funcDef false "g" (Body.cons Stmt.other Body.nil))
            Body.nil)) := by
  constructor <;> decide

/-- C4 (amended): with `replace_existing_docstrings` false, a function node
whose body starts with an existing doc comment is itself left alone: no
generation call is made for it, its leading doc comment stays in place, and
only nested function nodes inside its body may still be rewritten; in
particular its body is completely unchanged whenever it contains no nested
function definition. -/
theorem C4_amended_node_kept (skipC : Bool) (gen : Stmt → String)
    (isAsync : Bool) (name : String) (body : Body)
    (hdoc : hasDocstring body = true) :
    updateStmt false skipC gen (Stmt.funcDef isAsync name body)
      = Stmt.funcDef isAsync name (updateBody false skipC gen body) ∧
    genCallsStmt false skipC (Stmt.funcDef isAsync name body)
      = genCallsBody false skipC body ∧
    (bodyHasFuncDef body = false →
      updateStmt false skipC gen (Stmt.funcDef isAsync name body)
        = Stmt.funcDef isAsync name body) := by
  obtain ⟨s0, rest, rfl⟩ : ∃ s0 rest, body = Body.cons (Stmt.exprStr s0) rest := by
    cases body with
    | nil => simp [hasDocstring] at hdoc
    | cons s rest =>
      cases s with
      | exprStr s0 => exact ⟨s0, rest, rfl⟩
      | other => simp [hasDocstring] at hdoc
      | funcDef a n b => simp [hasDocstring] at hdoc
  refine ⟨?_, ?_, ?_⟩
  · by_cases hskip : (name == "__init__" && skipC) = true
    · simp [updateStmt, hskip]
    · simp [updateStmt, updateBody, hskip]
  · by_cases hskip : (name == "__init__" && skipC) = true
    · simp [genCallsStmt, hskip]
    · simp [genCallsStmt, genCallsBody, hskip]
  · intro hFD
    have hrest : bodyHasFuncDef rest = false := by
      simp [bodyHasFuncDef] at hFD
      exact hFD.2
    have hid := updateBody_id_of_noFD false skipC gen rest hrest
    by_cases hskip : (name == "__init__" && skipC) = true
    · simp [updateStmt, hskip, updateBody, hid]
    · simp [updateStmt, updateBody, hskip, hid]

/-- Witness for the amended C4 at a concrete node. -/
theorem C4_amended_node_kept_witness :
    updateStmt false false (fun _ => "D")
        (Stmt.funcDef false "f" (Body.cons (Stmt.exprStr "doc") Body.nil))
      = Stmt.funcDef false "f" (Body.cons (Stmt.exprStr "doc") Body.nil) :=
  (C4_amended_node_kept false (fun _ => "D") false "f"
    (Body.cons (Stmt.exprStr "doc") Body.nil) (by decide)).2.2 (by decide)

/-- C5 counterexample: with `skip_constructor_docstrings` true, an
`__init__` node is itself skipped, but `ast.walk` still rewrites the nested
function `g` defined inside it, so the `__init__` node is modified in the
rewritten tree. -/
theorem C5_counterexample :
    updateStmt true true (fun _ => mkFinalDocstring "D")
        (Stmt.funcDef false "__init__"
          (Body.cons (Stmt.funcDef false "g" (Body.cons Stmt.other Body.nil))
            Body.nil))
      = Stmt.funcDef false "__init__"
          (Body.cons (Stmt.funcDef false "g"
            (Body.cons (Stmt.exprStr "\n\nD\n\n")
              (Body.cons Stmt.other Body.nil)))
            Body.nil) ∧
    updateStmt true true (fun _ => mkFinalDocstring "D")
        (Stmt.funcDef false "__init__"
          (Body.cons (Stmt.funcDef false "g" (Body.cons Stmt.other Body.nil))
            Body.nil))
      ≠ Stmt.funcDef false "__init__"
          (Body.cons (Stmt.funcDef false "g" (Body.cons Stmt.other Body.nil))
            Body.nil) := by
  constructor <;> decide

/-- C5 (amended): with `skip_constructor_docstrings` true, an `__init__`
node is skipped before any docstring check, removal or generation call: no
generation call is made for it and its own docstring position is untouched;
only nested function nodes inside its body may still be rewritten, and the
node is completely unchanged whenever its body contains no nested function
definition. -/
theorem C5_amended_constructor_node_kept (replace : Bool) (gen : Stmt → String)
    (isAsync : Bool) (body : Body) :
    updateStmt replace true gen (Stmt.funcDef isAsync "__init__" body)
      = Stmt.funcDef isAsync "__init__" (updateBody replace true gen body) ∧
    genCallsStmt replace true (Stmt.funcDef isAsync "__init__" body)
      = genCallsBody replace true body ∧
    (bodyHasFuncDef body = false →
      updateStmt replace true gen (Stmt.funcDef isAsync "__init__" body)
        = Stmt.funcDef isAsync "__init__" body ∧
      genCallsStmt replace true (Stmt.funcDef isAsync "__init__" body) = []) := by
  have hskip : (("__init__" : String) == "__init__" && true) = true := by decide
  refine ⟨by simp [updateStmt, hskip], by simp [genCallsStmt, hskip], ?_⟩
  intro hFD
  constructor
  · simp [updateStmt, hskip, updateBody_id_of_noFD replace true gen body hFD]
  · simp [genCallsStmt, hskip, genCallsBody_nil_of_noFD replace true body hFD]

/-- Witness for the amended C5 at a concrete node. -/
theorem C5_amended_constructor_node_kept_witness :
    updateStmt true true (fun _ => "D")
        (Stmt.funcDef false "__init__" (Body.cons Stmt.other Body.nil))
      = Stmt.funcDef false "__init__" (Body.cons Stmt.other Body.nil) ∧
    genCallsStmt true true
        (Stmt.funcDef false "__init__" (Body.cons Stmt.other Body.nil)) = [] :=
  (C5_amended_constructor_node_kept true (fun _ => "D") false
    (Body.cons Stmt.other Body.nil)).2.2 (by decide)

end AAD
